import Mathlib

/-!
Shallow embedding of the actor-style backend core of the `new-keyglide`
repository (crates `backend` and `common`): the registry of clients and
lobbies, the per-lobby status state machine, player admission/removal and
owner election, the progress-scoring algorithm, and the timer-driven phase
advancement, together with proofs of the specification's testable
properties.

Machine conventions of the embedding:
* `Uuid` is modelled as `Nat` (an opaque, totally ordered identity).
* `BTreeMap` is modelled as an association list sorted strictly by key;
  `first_key_value` is the head of the list.
* An unbounded mpsc channel is identified by a `Uuid`; a send on a channel
  is recorded as an `Output` value, in program order.
* Wall-clock time (`DateTime<Utc>`) is an `Int`; `Duration`s are `Nat`
  seconds; `Utc::now()` is an environment parameter of the step function.
* `f64` progress scores are modelled exactly as rationals `ℚ`.
-/

namespace NewKeyglide



abbrev Uuid := Nat

/-- The `common::LobbyStatus` enum: race-phase state machine of a lobby. -/
inductive LobbyStatus where
  | WaitingForPlayers
  | AboutToStart (deadline : Int)
  | InProgress (deadline : Int)
  | Finish (deadline : Int)
deriving DecidableEq, Repr

/-- The `common::ChallengeFiles` pair of byte buffers. -/
structure ChallengeFiles where
  start_file : List Nat
  goal_file : List Nat
deriving DecidableEq, Repr

/-- The backend `Player` struct (`backend/src/player.rs`), including the
`waiting` flag read by the `ComputePlayerProgress` handler in
`backend/src/app/message.rs`. The channel `tx` is modelled by its id. -/
structure Player where
  id : Uuid
  name : String
  tx : Uuid
  progress : ℚ
  waiting : Bool
deriving DecidableEq, Repr

/-- The `common::Player` struct sent over the wire. -/
structure CommonPlayer where
  id : Uuid
  name : String
  progress : ℚ
deriving DecidableEq, Repr

/-- `Player::to_common_player`. -/
def Player.to_common_player (p : Player) : CommonPlayer :=
  ⟨p.id, p.name, p.progress⟩

/-- The `common::LobbyListItem` struct. -/
structure LobbyListItem where
  name : String
  player_count : Nat
  status : LobbyStatus
deriving DecidableEq, Repr

/-- The `common::LobbyInformation` struct. -/
structure LobbyInformation where
  id : Uuid
  name : String
  status : LobbyStatus
  owner : Option Uuid
  players : List (Uuid × CommonPlayer)
  challenge_files : ChallengeFiles
deriving DecidableEq, Repr

/-- The `common::JoinMode` enum. -/
inductive JoinMode where
  | Quickplay
  | Join (lobby_id : Uuid)
  | Create
deriving DecidableEq, Repr

/-- The `common::BackendMessage` enum (the variants produced by the
backend core). -/
inductive BackendMessage where
  | CurrentLobbies (lobbies : List (Uuid × LobbyListItem))
  | AddLobby (id : Uuid) (item : LobbyListItem)
  | UpdateLobbyPlayerCount (id : Uuid) (player_count : Nat)
  | UpdateLobbyStatus (id : Uuid) (status : LobbyStatus)
  | RemoveLobby (id : Uuid)
  | LobbyFull
  | LobbyNotWaitingForPlayers
  | ConnectionCounts (clients : Nat) (players : Nat)
  | ProvidePlayerId (id : Uuid)
  | AssignOwner (id : Uuid)
  | AddPlayer (player : CommonPlayer)
  | RemovePlayer (id : Uuid)
  | StatusUpdate (status : LobbyStatus)
  | UpdatePlayerProgress (player_id : Uuid) (progress : ℚ)
  | SendMessage (msg : String)
deriving DecidableEq, Repr

/-! ### Sorted association lists: the model of `BTreeMap` -/

/-- `BTreeMap::get`: first value stored under key `k`. -/
def lookupKey {α : Type} (k : Uuid) : List (Uuid × α) → Option α
  | [] => none
  | (k', v) :: rest => if k' = k then some v else lookupKey k rest

/-- `BTreeMap::insert`: insert keeping keys strictly sorted (replaces an
existing entry with the same key). -/
def insertKey {α : Type} (k : Uuid) (v : α) : List (Uuid × α) → List (Uuid × α)
  | [] => [(k, v)]
  | (k', v') :: rest =>
    if k < k' then (k, v) :: (k', v') :: rest
    else if k = k' then (k, v) :: rest
    else (k', v') :: insertKey k v rest

/-- `BTreeMap::remove`: drop the first entry with key `k`. -/
def eraseKey {α : Type} (k : Uuid) : List (Uuid × α) → List (Uuid × α)
  | [] => []
  | (k', v') :: rest => if k' = k then rest else (k', v') :: eraseKey k rest

/-- `BTreeMap::get_mut` followed by an in-place mutation: rewrite the value
stored under key `k`. -/
def updateKey {α : Type} (k : Uuid) (f : α → α) (l : List (Uuid × α)) :
    List (Uuid × α) :=
  l.map (fun p => if p.1 = k then (p.1, f p.2) else p)

/-! ### The progress evaluator (`strsim::normalized_levenshtein`)

The backend computes player progress with `strsim::normalized_levenshtein`
on the UTF-8 decodings of the goal file and the submitted bytes.  The
dependency computes the classic Levenshtein edit distance over `char`s and
normalizes by the larger character count, returning `1.0` when both
strings are empty. -/

/-- Column-helper of the edit-distance recursion: given
`f = levenshtein xs`, computes `fun ys => levenshtein (x :: xs) ys`. -/
def levAux (x : Char) (f : List Char → Nat) : List Char → Nat
  | [] => f [] + 1
  | y :: ys =>
    min (f (y :: ys) + 1)
      (min (levAux x f ys + 1) (f ys + (if x = y then 0 else 1)))

/-- The Levenshtein edit distance over characters (unit costs), as computed
by `strsim::levenshtein`. -/
def levenshtein : List Char → List Char → Nat
  | [] => fun ys => ys.length
  | x :: xs => levAux x (levenshtein xs)

/-- `strsim::normalized_levenshtein`, over exact rationals: `1.0` when both
strings are empty, else `1 - distance / max(len, len)`. -/
def normalized_levenshtein (a b : List Char) : ℚ :=
  if a = [] ∧ b = [] then 1
  else 1 - (levenshtein a b : ℚ) / (max a.length b.length : ℚ)

/-! ### Constants (`backend/src/constants.rs`, `common::constants`)

Durations are modelled in whole seconds. -/

/-- Modelled from the spec: the file `common/src/constants.rs` defining
`MAX_LOBBY_SIZE` is absent from the sources (only `pub mod constants;` and
the uses remain); the spec names "max lobby size" as a configuration
constant without fixing a numeric value, so a representative positive
bound is fixed here. No proof below depends on the particular value. -/
def MAX_LOBBY_SIZE : Nat := 5

/-- Empty lobbies survive 30 seconds before being removed. -/
def EMPTY_LOBBY_LIFETIME : Nat := 30

/-- Lobbies start ten seconds after a start request. -/
def LOBBY_START_TIMER : Nat := 10

/-- Lobbies are up to two minutes in progress. -/
def MAX_LOBBY_PLAY_TIME : Nat := 120

/-- After one player finished, the lobby play time is reduced. -/
def REDUCED_LOBBY_PLAY_TIME : Nat := 10

/-- Lobbies are ten seconds in the finish state. -/
def LOBBY_FINISH_TIME : Nat := 10

/-! ### Messages and observable outputs -/

/-- The `AppMessage` enum of `backend/src/app/message.rs`.  Channels
(`tokio` senders) are identified by `Uuid`.

The variant `LobbyNotWaitingForPlayers` is modelled from the spec: it is
sent by `Lobby::add_player` in `backend/src/lobby.rs` but its declaration
and dispatch arm are missing from the `message.rs` revision in the
sources; the spec describes it as the "lobby not accepting players"
rejection forwarded to the candidate's channel, mirroring `LobbyFull`. -/
inductive AppMessage where
  | ProvideLobbyInformation (tx : Uuid) (join_mode : JoinMode)
  | AddPlayerToLobby (lobby_id : Uuid) (player : Player)
  | RemovePlayer (player : Player) (lobby_id : Uuid)
  | SendMessage (player : Player) (message : String) (lobby_id : Uuid)
  | CurrentLobbies (client_id : Uuid)
  | AddLobby (lobby_id : Uuid)
  | SendLobbyPlayerCountUpdate (lobby_id : Uuid)
  | SendLobbyStatusUpdate (lobby_id : Uuid)
  | RemoveLobby (lobby_id : Uuid)
  | LobbyFull (player_tx : Uuid)
  | LobbyNotWaitingForPlayers (player_tx : Uuid)
  | SendConnectionCounts
  | AddClient (client_id : Uuid) (client_tx : Uuid)
  | RemoveClient (client_id : Uuid)
  | RequestStart (player : Player) (lobby_id : Uuid)
  | Start (lobby_id : Uuid)
  | Finish (lobby_id : Uuid)
  | Reset (lobby_id : Uuid)
  | ComputePlayerProgress (lobby_id : Uuid) (player_id : Uuid) (progress : List Nat)
deriving DecidableEq, Repr

/-- One observable effect of a handler, in program order: a send on a
player/client channel, a re-enqueued message on the app's own queue, a
spawned sleep-then-send timer task, or a one-shot reply. -/
inductive Output where
  | toChan (chan : Uuid) (msg : BackendMessage)
  | toSelf (msg : AppMessage)
  | timer (delay : Nat) (msg : AppMessage)
  | oneshot (chan : Uuid) (info : LobbyInformation)
deriving DecidableEq, Repr

/-! ### The `Lobby` struct and its operations (`backend/src/lobby.rs`) -/

/-- The backend `Lobby` struct. -/
structure Lobby where
  id : Uuid
  name : String
  /-- The current owner of the lobby; `none` in an empty lobby. -/
  owner : Option Uuid
  players : List (Uuid × Player)
  challenge_files : ChallengeFiles
  status : LobbyStatus
deriving DecidableEq, Repr

/-- Send a message to every player of a player map, in map order. -/
def sendAll (players : List (Uuid × Player)) (msg : BackendMessage) :
    List Output :=
  players.map (fun p => Output.toChan p.2.tx msg)

/-- `Lobby::broadcast`: send a message to every player inside the lobby. -/
def Lobby.broadcast (l : Lobby) (msg : BackendMessage) : List Output :=
  sendAll l.players msg

/-- `Lobby::to_list_item`. -/
def Lobby.to_list_item (l : Lobby) : LobbyListItem :=
  ⟨l.name, l.players.length, l.status⟩

/-- `Lobby::to_information`. -/
def Lobby.to_information (l : Lobby) : LobbyInformation :=
  ⟨l.id, l.name, l.status, l.owner,
    l.players.map (fun p => (p.1, p.2.to_common_player)), l.challenge_files⟩

/-- `Lobby::add_player`: returns the lobby after the call together with the
sends performed, in program order. -/
def Lobby.add_player (l : Lobby) (player : Player) : Lobby × List Output :=
  -- Return early if the lobby is full.
  if l.players.length ≥ MAX_LOBBY_SIZE then
    (l, [Output.toSelf (AppMessage.LobbyFull player.tx)])
  else if l.status ≠ LobbyStatus.WaitingForPlayers then
    (l, [Output.toSelf (AppMessage.LobbyNotWaitingForPlayers player.tx)])
  else
    -- Insert the player into the player map.
    let l1 : Lobby := { l with players := insertKey player.id player l.players }
    -- Tell connected players about this new player.
    let outs1 := l1.broadcast (BackendMessage.AddPlayer player.to_common_player)
      ++ [Output.toSelf (AppMessage.SendLobbyPlayerCountUpdate l.id),
          Output.toSelf AppMessage.SendConnectionCounts]
    -- If the new player is the only player in the lobby, assign the owner.
    let (l2, outs2) :=
      if l1.players.length = 1 then
        ({ l1 with owner := some player.id },
          [Output.toChan player.tx (BackendMessage.AssignOwner player.id)])
      else (l1, [])
    -- Tell the player about his own ID.
    (l2, outs1 ++ outs2
      ++ [Output.toChan player.tx (BackendMessage.ProvidePlayerId player.id)])

/-- `Lobby::remove_player`: removes a player from the lobby if he exists. -/
def Lobby.remove_player (l : Lobby) (player : Player) : Lobby × List Output :=
  match lookupKey player.id l.players with
  | none => (l, [])
  | some removed =>
    let l1 : Lobby := { l with players := eraseKey player.id l.players }
    -- Tell connected players about the removal of this player.
    let outs1 := l1.broadcast (BackendMessage.RemovePlayer removed.id)
    -- Owner succession: promote the first remaining key, if any.
    let (l2, outs2) :=
      if l.owner = some removed.id then
        match l1.players.head? with
        | some (player_id, _) =>
          let l2 : Lobby := { l1 with owner := some player_id }
          (l2, l2.broadcast (BackendMessage.AssignOwner player_id))
        | none => (l1, [])
      else (l1, [])
    let outs3 := [Output.toSelf (AppMessage.SendLobbyPlayerCountUpdate l.id),
      Output.toSelf AppMessage.SendConnectionCounts]
    -- Now, if the lobby is empty, reset it and schedule its removal.
    if l2.players = [] then
      let l3 : Lobby :=
        { l2 with owner := none, status := LobbyStatus.WaitingForPlayers }
      (l3, outs1 ++ outs2 ++ outs3
        ++ [Output.toSelf (AppMessage.SendLobbyStatusUpdate l.id),
            Output.timer EMPTY_LOBBY_LIFETIME (AppMessage.RemoveLobby l.id)])
    else
      (l2, outs1 ++ outs2 ++ outs3)

/-- `Lobby::send_message`: broadcasts a chat message of a player to all
connected players if the player exists. -/
def Lobby.send_message (l : Lobby) (player : Player) (message : String) :
    List Output :=
  match lookupKey player.id l.players with
  | none => []
  | some stored =>
    l.broadcast (BackendMessage.SendMessage (stored.name ++ ": " ++ message))

/-! ### UTF-8 decoding (`std::str::from_utf8`) -/

/-- Is `c` a UTF-8 continuation byte? -/
def contByte (c : Nat) : Bool := 0x80 ≤ c && c ≤ 0xBF

/-- `std::str::from_utf8` followed by `.chars()`: strict UTF-8 decoding of
a byte buffer into characters, rejecting overlong encodings, surrogates
and out-of-range code points. -/
def utf8Decode : List Nat → Option (List Char)
  | [] => some []
  | b :: rest =>
    if b < 0x80 then
      match utf8Decode rest with
      | some cs => some (Char.ofNat b :: cs)
      | none => none
    else if 0xC2 ≤ b && b ≤ 0xDF then
      match rest with
      | c1 :: rest1 =>
        if contByte c1 then
          match utf8Decode rest1 with
          | some cs => some (Char.ofNat ((b - 0xC0) * 0x40 + (c1 - 0x80)) :: cs)
          | none => none
        else none
      | [] => none
    else if 0xE0 ≤ b && b ≤ 0xEF then
      match rest with
      | c1 :: c2 :: rest2 =>
        if (if b = 0xE0 then 0xA0 ≤ c1 && c1 ≤ 0xBF
            else if b = 0xED then 0x80 ≤ c1 && c1 ≤ 0x9F
            else contByte c1) && contByte c2 then
          match utf8Decode rest2 with
          | some cs =>
            some (Char.ofNat
              ((b - 0xE0) * 0x1000 + (c1 - 0x80) * 0x40 + (c2 - 0x80)) :: cs)
          | none => none
        else none
      | _ => none
    else if 0xF0 ≤ b && b ≤ 0xF4 then
      match rest with
      | c1 :: c2 :: c3 :: rest3 =>
        if (if b = 0xF0 then 0x90 ≤ c1 && c1 ≤ 0xBF
            else if b = 0xF4 then 0x80 ≤ c1 && c1 ≤ 0x8F
            else contByte c1) && contByte c2 && contByte c3 then
          match utf8Decode rest3 with
          | some cs =>
            some (Char.ofNat
              ((b - 0xF0) * 0x40000 + (c1 - 0x80) * 0x1000
                + (c2 - 0x80) * 0x40 + (c3 - 0x80)) :: cs)
          | none => none
        else none
      | _ => none
    else none

/-! ### The registry (`backend/src/app.rs`) and the actor step -/

/-- The `App` struct: all non-playing clients (id to channel) and all
active lobbies.  The queue endpoints `tx`/`rx` are implicit in the step
semantics. -/
structure App where
  clients : List (Uuid × Uuid)
  lobbies : List (Uuid × Lobby)
deriving DecidableEq, Repr

/-- `App::new`: a new app with no clients and lobbies. -/
def App.new : App := ⟨[], []⟩

/-- Environment of one handler invocation: the wall clock and the
generated data (`Uuid::new_v4`, the faked company name, the asset files)
consumed by `Lobby::default`. -/
structure Env where
  now : Int
  fresh_id : Uuid
  fresh_name : String
  assets : ChallengeFiles
deriving Repr

/-- `Lobby::default`: a fresh empty lobby in `WaitingForPlayers`. -/
def Lobby.default (env : Env) : Lobby :=
  { id := env.fresh_id
    name := env.fresh_name
    owner := none
    players := []
    challenge_files := env.assets
    status := LobbyStatus.WaitingForPlayers }

/-- Rust's `Iterator::max_by_key`: the last element attaining the largest
key, or `none` on an empty iterator. -/
def maxByKeyLast {α : Type} (key : α → Nat) (l : List α) : Option α :=
  l.foldl
    (fun acc x =>
      match acc with
      | none => some x
      | some y => if key y > key x then some y else some x)
    none

/-- `App::create_new_lobby`: insert a fresh default lobby and announce it. -/
def App.create_new_lobby (env : Env) (app : App) :
    Uuid × App × List Output :=
  let lobby := Lobby.default env
  (lobby.id,
    { app with lobbies := insertKey lobby.id lobby app.lobbies },
    [Output.toSelf (AppMessage.AddLobby lobby.id)])

/-- `App::get_lobby_id`: the ID of an available lobby, or a fresh one,
depending on the join mode; `none` models the `Err` return. -/
def App.get_lobby_id (env : Env) (join_mode : JoinMode) (app : App) :
    Option Uuid × App × List Output :=
  match join_mode with
  | JoinMode.Quickplay =>
    match maxByKeyLast (fun l => l.players.length)
        ((app.lobbies.map Prod.snd).filter
          (fun l => l.players.length < MAX_LOBBY_SIZE)) with
    | some lobby => (some lobby.id, app, [])
    | none =>
      let (id, app', outs) := app.create_new_lobby env
      (some id, app', outs)
  | JoinMode.Join lobby_id =>
    match lookupKey lobby_id app.lobbies with
    | none => (none, app, [])
    | some lobby => (some lobby.id, app, [])
  | JoinMode.Create =>
    let (id, app', outs) := app.create_new_lobby env
    (some id, app', outs)

/-- `App::get_current_lobbies`. -/
def App.get_current_lobbies (app : App) : List (Uuid × LobbyListItem) :=
  app.lobbies.map (fun p => (p.2.id, p.2.to_list_item))

/-- `App::remove_lobby`: removes a lobby if it exists and is empty, telling
all connected clients. -/
def App.remove_lobby (lobby_id : Uuid) (app : App) : App × List Output :=
  match lookupKey lobby_id app.lobbies with
  | none => (app, [])
  | some lobby =>
    if lobby.players = [] then
      ({ app with lobbies := eraseKey lobby_id app.lobbies },
        app.clients.map
          (fun c => Output.toChan c.2 (BackendMessage.RemoveLobby lobby_id)))
    else (app, [])

/-- `App::send_lobby_list_information`. -/
def App.send_lobby_list_information (lobby_id : Uuid) (app : App) :
    List Output :=
  match lookupKey lobby_id app.lobbies with
  | none => []
  | some lobby =>
    app.clients.map
      (fun c => Output.toChan c.2
        (BackendMessage.AddLobby lobby_id lobby.to_list_item))

/-- Replace the lobby stored under `lobby_id` (the `get_mut` pattern). -/
def App.setLobby (lobby_id : Uuid) (lobby : Lobby) (app : App) : App :=
  { app with lobbies := updateKey lobby_id (fun _ => lobby) app.lobbies }

/-- One iteration of `handle_app_message` (`backend/src/app/message.rs`):
process a single `AppMessage` against the app state, returning the new
state and the observable sends in program order.  Unknown-id lookups are
non-fatal: log and continue, i.e. no change and no output. -/
def stepApp (env : Env) (msg : AppMessage) (app : App) : App × List Output :=
  match msg with
  | AppMessage.ProvideLobbyInformation tx join_mode =>
    match app.get_lobby_id env join_mode with
    | (none, app', outs) => (app', outs)
    | (some lobby_id, app', outs) =>
      match lookupKey lobby_id app'.lobbies with
      | none => (app', outs)
      | some lobby => (app', outs ++ [Output.oneshot tx lobby.to_information])
  | AppMessage.AddPlayerToLobby lobby_id player =>
    match lookupKey lobby_id app.lobbies with
    | none => (app, [])
    | some lobby =>
      let (lobby', outs) := lobby.add_player player
      (app.setLobby lobby_id lobby', outs)
  | AppMessage.RemovePlayer player lobby_id =>
    match lookupKey lobby_id app.lobbies with
    | none => (app, [])
    | some lobby =>
      let (lobby', outs) := lobby.remove_player player
      (app.setLobby lobby_id lobby', outs)
  | AppMessage.SendMessage player message lobby_id =>
    match lookupKey lobby_id app.lobbies with
    | none => (app, [])
    | some lobby => (app, lobby.send_message player message)
  | AppMessage.LobbyFull player_tx =>
    (app, [Output.toChan player_tx BackendMessage.LobbyFull])
  | AppMessage.LobbyNotWaitingForPlayers player_tx =>
    -- Modelled from the spec: the dispatch arm forwarding the "lobby not
    -- accepting players" rejection to the candidate's channel, mirroring
    -- the `LobbyFull` arm; it is missing from the `message.rs` revision
    -- in the sources although `Lobby::add_player` sends the message.
    (app, [Output.toChan player_tx BackendMessage.LobbyNotWaitingForPlayers])
  | AppMessage.CurrentLobbies client_id =>
    match lookupKey client_id app.clients with
    | none => (app, [])
    | some client =>
      (app, [Output.toChan client
        (BackendMessage.CurrentLobbies app.get_current_lobbies)])
  | AppMessage.AddLobby lobby_id =>
    (app, app.send_lobby_list_information lobby_id)
  | AppMessage.RemoveLobby lobby_id =>
    app.remove_lobby lobby_id
  | AppMessage.AddClient client_id client_tx =>
    ({ app with clients := insertKey client_id client_tx app.clients },
      [Output.toSelf AppMessage.SendConnectionCounts])
  | AppMessage.RemoveClient client_id =>
    ({ app with clients := eraseKey client_id app.clients },
      [Output.toSelf AppMessage.SendConnectionCounts])
  | AppMessage.SendConnectionCounts =>
    let clients := app.clients.length
    let players := (app.lobbies.map (fun p => p.2.players.length)).sum
    let m := BackendMessage.ConnectionCounts clients players
    (app, app.clients.map (fun c => Output.toChan c.2 m)
      ++ (app.lobbies.map (fun p => p.2.broadcast m)).flatten)
  | AppMessage.RequestStart player lobby_id =>
    match lookupKey lobby_id app.lobbies with
    | none => (app, [])
    | some lobby =>
      -- Start the game inside the lobby if the player is the lobby owner.
      if lobby.owner = some player.id
          && lobby.status = LobbyStatus.WaitingForPlayers then
        let lobby' :=
          { lobby with
            status := LobbyStatus.AboutToStart (env.now + LOBBY_START_TIMER) }
        (app.setLobby lobby_id lobby',
          [Output.toSelf (AppMessage.SendLobbyStatusUpdate lobby.id)]
          ++ lobby'.broadcast (BackendMessage.StatusUpdate lobby'.status)
          ++ [Output.timer LOBBY_START_TIMER (AppMessage.Start lobby.id)])
      else (app, [])
  | AppMessage.Start lobby_id =>
    match lookupKey lobby_id app.lobbies with
    | none => (app, [])
    | some lobby =>
      match lobby.status with
      | LobbyStatus.AboutToStart _ =>
        let lobby' :=
          { lobby with
            status := LobbyStatus.InProgress (env.now + MAX_LOBBY_PLAY_TIME) }
        (app.setLobby lobby_id lobby',
          [Output.toSelf (AppMessage.SendLobbyStatusUpdate lobby.id)]
          ++ lobby'.broadcast (BackendMessage.StatusUpdate lobby'.status)
          ++ [Output.timer MAX_LOBBY_PLAY_TIME (AppMessage.Finish lobby_id)])
      | _ => (app, [])
  | AppMessage.SendLobbyPlayerCountUpdate lobby_id =>
    match lookupKey lobby_id app.lobbies with
    | none => (app, [])
    | some lobby =>
      (app, app.clients.map
        (fun c => Output.toChan c.2
          (BackendMessage.UpdateLobbyPlayerCount lobby_id
            lobby.players.length)))
  | AppMessage.SendLobbyStatusUpdate lobby_id =>
    match lookupKey lobby_id app.lobbies with
    | none => (app, [])
    | some lobby =>
      (app, app.clients.map
        (fun c => Output.toChan c.2
          (BackendMessage.UpdateLobbyStatus lobby_id lobby.status)))
  | AppMessage.Finish lobby_id =>
    match lookupKey lobby_id app.lobbies with
    | none => (app, [])
    | some lobby =>
      match lobby.status with
      | LobbyStatus.InProgress _ =>
        let lobby' :=
          { lobby with
            status := LobbyStatus.Finish (env.now + LOBBY_FINISH_TIME) }
        (app.setLobby lobby_id lobby',
          [Output.toSelf (AppMessage.SendLobbyStatusUpdate lobby.id)]
          ++ lobby'.broadcast (BackendMessage.StatusUpdate lobby'.status)
          ++ [Output.timer LOBBY_FINISH_TIME (AppMessage.Reset lobby_id)])
      | _ => (app, [])
  | AppMessage.Reset lobby_id =>
    match lookupKey lobby_id app.lobbies with
    | none => (app, [])
    | some lobby =>
      -- Reset all players progress (no status re-check in the source).
      let lobby1 :=
        { lobby with
          players := lobby.players.map
            (fun (p : Uuid × Player) => (p.1, { p.2 with progress := 0 })) }
      let progressOuts :=
        (lobby1.players.map
          (fun (p : Uuid × Player) => lobby1.broadcast
            (BackendMessage.UpdatePlayerProgress p.2.id p.2.progress))).flatten
      let lobby2 := { lobby1 with status := LobbyStatus.WaitingForPlayers }
      (app.setLobby lobby_id lobby2,
        progressOuts
        ++ [Output.toSelf (AppMessage.SendLobbyStatusUpdate lobby.id)]
        ++ lobby2.broadcast (BackendMessage.StatusUpdate lobby2.status))
  | AppMessage.ComputePlayerProgress lobby_id player_id progress =>
    match lookupKey lobby_id app.lobbies with
    | none => (app, [])
    | some lobby =>
      let finished_player_count :=
        (lobby.players.filter (fun p => decide (p.2.progress = 1))).length
      match lookupKey player_id lobby.players with
      | none => (app, [])
      | some player =>
        if player.waiting then (app, [])
        else
          match lobby.status with
          | LobbyStatus.InProgress _ =>
            match utf8Decode lobby.challenge_files.goal_file with
            | none => (app, [])
            | some goal_file =>
              match utf8Decode progress with
              | none => (app, [])
              | some player_file =>
                let score := normalized_levenshtein goal_file player_file
                let lobby1 :=
                  { lobby with
                    players := updateKey player_id
                      (fun q => { q with progress := score }) lobby.players }
                if score = 1 then
                  let lobby2 :=
                    { lobby1 with
                      status := LobbyStatus.InProgress
                        (env.now + REDUCED_LOBBY_PLAY_TIME) }
                  (app.setLobby lobby_id lobby2,
                    [Output.timer REDUCED_LOBBY_PLAY_TIME
                      (AppMessage.Finish lobby_id)]
                    ++ lobby2.broadcast (BackendMessage.SendMessage
                      ("Player " ++ player.name ++ " finished in position "
                        ++ toString (finished_player_count + 1) ++ "!"))
                    ++ lobby2.broadcast
                      (BackendMessage.StatusUpdate lobby2.status)
                    ++ lobby2.broadcast
                      (BackendMessage.UpdatePlayerProgress player_id score))
                else
                  (app.setLobby lobby_id lobby1,
                    lobby1.broadcast
                      (BackendMessage.UpdatePlayerProgress player_id score))
          | _ => (app, [])

/-- The states reachable by the actor loop from the initial empty app,
under arbitrary message arrivals and environments. -/
inductive Reachable : App → Prop where
  | init : Reachable App.new
  | step (env : Env) (msg : AppMessage) {s : App} :
      Reachable s → Reachable (stepApp env msg s).1

/-! ### Representation lemmas for the association-list maps -/

/-- The key list of a map. -/
def keys {α : Type} (l : List (Uuid × α)) : List Uuid := l.map Prod.fst

/-! ### The lobby representation invariant -/

/-- Well-formedness of one lobby: bounded size, each stored player is
keyed by its own id, keys strictly sorted (the `BTreeMap` representation
invariant), and the owner invariant — an empty lobby has no owner, a
non-empty lobby's owner is a current member. -/
def LobbyOk (l : Lobby) : Prop :=
  l.players.length ≤ MAX_LOBBY_SIZE ∧
  (∀ e ∈ l.players, e.2.id = e.1) ∧
  (keys l.players).Pairwise (· < ·) ∧
  (l.players = [] → l.owner = none) ∧
  (l.players ≠ [] → ∃ o, l.owner = some o ∧ o ∈ keys l.players)

/-- Global invariant of the registry: every stored lobby is well formed. -/
def Inv (app : App) : Prop := ∀ q ∈ app.lobbies, LobbyOk q.2

/-! ### Concrete fixtures used by the witness theorems -/

/-- A concrete player with id `i` and channel id `100 + i`. -/
def wPlayer (i : Nat) : Player := ⟨i, "P", 100 + i, 0, false⟩

/-- A concrete environment. -/
def wEnv : Env := ⟨0, 99, "F", ⟨[], []⟩⟩

/-- A concrete full lobby (`MAX_LOBBY_SIZE` players), waiting for players. -/
def wFullLobby : Lobby :=
  { id := 7, name := "L", owner := some 1,
    players := [(1, wPlayer 1), (2, wPlayer 2), (3, wPlayer 3),
                (4, wPlayer 4), (5, wPlayer 5)],
    challenge_files := ⟨[97], [97]⟩,
    status := LobbyStatus.WaitingForPlayers }

/-- A concrete three-player lobby owned by player 1, mid-race with the
goal file "a" and deadline 0. -/
def wRaceLobby : Lobby :=
  { id := 7, name := "L", owner := some 1,
    players := [(1, wPlayer 1), (2, wPlayer 2), (3, wPlayer 3)],
    challenge_files := ⟨[97], [97]⟩,
    status := LobbyStatus.InProgress 0 }

/-- A concrete registry holding one client and the race lobby. -/
def wRaceApp : App := ⟨[(50, 150)], [(7, wRaceLobby)]⟩

/-- A concrete lobby mid-race with a finished player, deadline 5. -/
def wResetLobby : Lobby :=
  { id := 7, name := "L", owner := some 1,
    players := [(1, { wPlayer 1 with progress := 1 }), (2, wPlayer 2)],
    challenge_files := ⟨[97], [97]⟩,
    status := LobbyStatus.InProgress 5 }

/-- A registry holding only the mid-race lobby with a finished player. -/
def wResetApp : App := ⟨[], [(7, wResetLobby)]⟩

/-- A registry holding only the full waiting lobby. -/
def wFullApp : App := ⟨[], [(7, wFullLobby)]⟩

/-- A one-player lobby with id 1. -/
def wLobbyOne : Lobby :=
  { id := 1, name := "A", owner := some 11, players := [(11, wPlayer 11)],
    challenge_files := ⟨[], []⟩, status := LobbyStatus.WaitingForPlayers }

/-- A two-player lobby with id 2. -/
def wLobbyTwo : Lobby :=
  { id := 2, name := "B", owner := some 11,
    players := [(11, wPlayer 11), (12, wPlayer 12)],
    challenge_files := ⟨[], []⟩, status := LobbyStatus.WaitingForPlayers }

/-- A registry with two non-full lobbies of different sizes. -/
def wQuickApp : App := ⟨[], [(1, wLobbyOne), (2, wLobbyTwo)]⟩

/-- The registry state produced by creating one lobby from the initial
empty state. -/
def wCreateApp : App :=
  (stepApp wEnv (AppMessage.ProvideLobbyInformation 0 JoinMode.Create)
    App.new).1

theorem levenshtein_nil_left (ys : List Char) : levenshtein [] ys = ys.length :=
  rfl

theorem levenshtein_nil_right (xs : List Char) :
    levenshtein xs [] = xs.length := by
  cases xs with
  | nil => rfl
  | cons x xs => simp [levenshtein, levAux, levenshtein_nil_right xs]

theorem levenshtein_cons_cons (x y : Char) (xs ys : List Char) :
    levenshtein (x :: xs) (y :: ys) =
      min (levenshtein xs (y :: ys) + 1)
        (min (levenshtein (x :: xs) ys + 1)
          (levenshtein xs ys + (if x = y then 0 else 1))) :=
  rfl

theorem levenshtein_self (xs : List Char) : levenshtein xs xs = 0 := by
  induction xs with
  | nil => rfl
  | cons x xs ih =>
    rw [levenshtein_cons_cons, ih]
    simp

theorem levenshtein_le_max (xs ys : List Char) :
    levenshtein xs ys ≤ max xs.length ys.length := by
  induction xs generalizing ys with
  | nil => simp [levenshtein_nil_left]
  | cons x xs ihx =>
    induction ys with
    | nil => simp [levenshtein_nil_right]
    | cons y ys ihy =>
      rw [levenshtein_cons_cons]
      have h1 := ihx (y :: ys)
      have h3 := ihx ys
      have hc : (if x = y then 0 else 1) ≤ 1 := by split <;> simp
      simp only [List.length_cons] at *
      omega

theorem normalized_levenshtein_nonneg (a b : List Char) :
    0 ≤ normalized_levenshtein a b := by
  unfold normalized_levenshtein
  split
  · norm_num
  · rename_i h
    have hmax : 0 < max a.length b.length := by
      rcases List.eq_nil_or_concat a with rfl | _
      · rcases List.eq_nil_or_concat b with rfl | hb
        · exact absurd ⟨rfl, rfl⟩ h
        · have : b ≠ [] := by
            rcases hb with ⟨_, _, rfl⟩; simp
          have : 0 < b.length := List.length_pos.mpr this
          omega
      · rename_i ha
        have : a ≠ [] := by
          rcases ha with ⟨_, _, rfl⟩; simp
        have : 0 < a.length := List.length_pos.mpr this
        omega
    have hle : (levenshtein a b : ℚ) ≤ (max a.length b.length : ℚ) := by
      exact_mod_cast levenshtein_le_max a b
    have hpos : (0 : ℚ) < (max a.length b.length : ℚ) := by exact_mod_cast hmax
    have := div_le_one_of_le₀ hle (le_of_lt hpos)
    linarith

theorem normalized_levenshtein_le_one (a b : List Char) :
    normalized_levenshtein a b ≤ 1 := by
  unfold normalized_levenshtein
  split
  · norm_num
  · have h0 : (0 : ℚ) ≤ (levenshtein a b : ℚ) := by positivity
    have hm : (0 : ℚ) ≤ (max a.length b.length : ℚ) := by positivity
    have := div_nonneg h0 hm
    linarith

theorem normalized_levenshtein_self (a : List Char) :
    normalized_levenshtein a a = 1 := by
  unfold normalized_levenshtein
  split
  · rfl
  · rw [levenshtein_self]
    simp

theorem normalized_levenshtein_nil_right (a : List Char) (h : a ≠ []) :
    normalized_levenshtein a [] = 0 := by
  unfold normalized_levenshtein
  rw [if_neg (by simp [h])]
  rw [levenshtein_nil_right]
  have hpos : 0 < a.length := List.length_pos.mpr h
  have : (max a.length ([] : List Char).length : ℚ) = (a.length : ℚ) := by
    simp
  rw [this]
  rw [div_self (by exact_mod_cast hpos.ne')]
  ring

@[simp] theorem keys_nil {α : Type} : keys ([] : List (Uuid × α)) = [] := rfl

@[simp] theorem keys_cons {α : Type} (e : Uuid × α) (l : List (Uuid × α)) :
    keys (e :: l) = e.1 :: keys l := rfl

theorem lookupKey_mem {α : Type} {k : Uuid} {v : α} {l : List (Uuid × α)}
    (h : lookupKey k l = some v) : (k, v) ∈ l := by
  induction l with
  | nil => simp [lookupKey] at h
  | cons e rest ih =>
    rw [lookupKey] at h
    by_cases he : e.1 = k
    · rw [if_pos he] at h
      cases h
      rw [← he]
      exact List.mem_cons_self _ _
    · rw [if_neg he] at h
      exact List.mem_cons_of_mem _ (ih h)

theorem insertKey_ne_nil {α : Type} (k : Uuid) (v : α) (l : List (Uuid × α)) :
    insertKey k v l ≠ [] := by
  cases l with
  | nil => simp [insertKey]
  | cons e rest =>
    rw [insertKey]
    split
    · simp
    · split <;> simp

theorem length_insertKey_le {α : Type} (k : Uuid) (v : α)
    (l : List (Uuid × α)) : (insertKey k v l).length ≤ l.length + 1 := by
  induction l with
  | nil => simp [insertKey]
  | cons e rest ih =>
    rw [insertKey]
    split
    · simp
    · split
      · simp
      · simpa using Nat.succ_le_succ ih

theorem mem_insertKey {α : Type} {e : Uuid × α} {k : Uuid} {v : α}
    {l : List (Uuid × α)} (h : e ∈ insertKey k v l) : e = (k, v) ∨ e ∈ l := by
  induction l with
  | nil => simpa [insertKey] using h
  | cons e' rest ih =>
    rw [insertKey] at h
    split at h
    · rcases List.mem_cons.mp h with h | h
      · exact Or.inl h
      · exact Or.inr h
    · split at h
      · rcases List.mem_cons.mp h with h | h
        · exact Or.inl h
        · exact Or.inr (List.mem_cons_of_mem _ h)
      · rcases List.mem_cons.mp h with h | h
        · exact Or.inr (by simp [h])
        · rcases ih h with h | h
          · exact Or.inl h
          · exact Or.inr (List.mem_cons_of_mem _ h)

theorem mem_keys_insertKey_self {α : Type} (k : Uuid) (v : α)
    (l : List (Uuid × α)) : k ∈ keys (insertKey k v l) := by
  induction l with
  | nil => simp [insertKey, keys]
  | cons e rest ih =>
    rw [insertKey]
    split
    · simp [keys]
    · split
      · simp [keys]
      · simpa [keys] using Or.inr (by simpa [keys] using ih)

theorem mem_keys_insertKey_of_mem {α : Type} {a : Uuid} (k : Uuid) (v : α)
    {l : List (Uuid × α)} (h : a ∈ keys l) : a ∈ keys (insertKey k v l) := by
  induction l with
  | nil => simp [keys] at h
  | cons e rest ih =>
    rw [insertKey]
    rcases (by simpa [keys] using h : a = e.1 ∨ a ∈ keys rest) with h' | h'
    · split
      · simp [keys, h']
      · split
        · rename_i hlt heq
          simp [keys, h', ← heq]
        · simp [keys, h']
    · split
      · simpa [keys] using Or.inr (Or.inr (by simpa [keys] using h'))
      · split
        · simpa [keys] using Or.inr (by simpa [keys] using h')
        · simpa [keys] using Or.inr (by simpa [keys] using ih h')

theorem mem_keys_insertKey {α : Type} {a k : Uuid} {v : α}
    {l : List (Uuid × α)} (h : a ∈ keys (insertKey k v l)) :
    a = k ∨ a ∈ keys l := by
  rcases List.mem_map.mp h with ⟨e, he, rfl⟩
  rcases mem_insertKey he with h' | h'
  · exact Or.inl (by rw [h'])
  · exact Or.inr (List.mem_map_of_mem _ h')

theorem pairwise_keys_insertKey {α : Type} (k : Uuid) (v : α)
    {l : List (Uuid × α)} (h : (keys l).Pairwise (· < ·)) :
    (keys (insertKey k v l)).Pairwise (· < ·) := by
  induction l with
  | nil => simp [insertKey, keys]
  | cons e rest ih =>
    simp only [keys_cons, List.pairwise_cons] at h
    obtain ⟨hhead, htail⟩ := h
    rw [insertKey]
    split
    · rename_i hlt
      simp only [keys_cons, List.pairwise_cons]
      refine ⟨?_, hhead, htail⟩
      intro a ha
      rcases List.mem_cons.mp ha with rfl | h'
      · exact hlt
      · exact lt_trans hlt (hhead a h')
    · split
      · rename_i hlt heq
        simp only [keys_cons, List.pairwise_cons]
        refine ⟨?_, htail⟩
        intro a ha
        rw [heq]
        exact hhead a ha
      · rename_i hlt hne
        simp only [keys_cons, List.pairwise_cons]
        refine ⟨?_, ih htail⟩
        intro a ha
        rcases mem_keys_insertKey ha with rfl | h'
        · have h1 : ¬ a < e.1 := hlt
          have h2 : ¬ a = e.1 := hne
          have h3 : e.1 ≤ a := Nat.le_of_not_lt h1
          exact Nat.lt_of_le_of_ne h3 (fun hh => h2 hh.symm)
        · exact hhead a h'

theorem eraseKey_sublist {α : Type} (k : Uuid) (l : List (Uuid × α)) :
    (eraseKey k l).Sublist l := by
  induction l with
  | nil => simp [eraseKey]
  | cons e rest ih =>
    rw [eraseKey]
    split
    · exact List.sublist_cons_self e rest
    · exact List.Sublist.cons₂ e ih

theorem length_eraseKey_le {α : Type} (k : Uuid) (l : List (Uuid × α)) :
    (eraseKey k l).length ≤ l.length :=
  (eraseKey_sublist k l).length_le

theorem mem_of_mem_eraseKey {α : Type} {e : Uuid × α} {k : Uuid}
    {l : List (Uuid × α)} (h : e ∈ eraseKey k l) : e ∈ l :=
  (eraseKey_sublist k l).mem h

theorem pairwise_keys_eraseKey {α : Type} (k : Uuid) {l : List (Uuid × α)}
    (h : (keys l).Pairwise (· < ·)) :
    (keys (eraseKey k l)).Pairwise (· < ·) :=
  h.sublist ((eraseKey_sublist k l).map Prod.fst)

theorem mem_keys_eraseKey {α : Type} {a k : Uuid} {l : List (Uuid × α)}
    (h : a ∈ keys l) (hne : a ≠ k) : a ∈ keys (eraseKey k l) := by
  induction l with
  | nil => simp [keys] at h
  | cons e rest ih =>
    rw [eraseKey]
    rcases (by simpa [keys] using h : a = e.1 ∨ a ∈ keys rest) with h' | h'
    · split
      · rename_i hk
        exact absurd (h' ▸ hk) hne
      · simp [keys, h']
    · split
      · simpa [keys] using h'
      · simpa [keys] using Or.inr (by simpa [keys] using ih h')

theorem updateKey_eq_map {α : Type} (k : Uuid) (f : α → α)
    (l : List (Uuid × α)) :
    updateKey k f l
      = l.map (fun e => (e.1, if e.1 = k then f e.2 else e.2)) := by
  unfold updateKey
  induction l with
  | nil => simp
  | cons e rest ih =>
    simp only [List.map_cons, ih]
    split <;> simp_all

theorem keys_updateKey {α : Type} (k : Uuid) (f : α → α)
    (l : List (Uuid × α)) : keys (updateKey k f l) = keys l := by
  rw [updateKey_eq_map]
  unfold keys
  rw [List.map_map]
  rfl

theorem lobbyOk_default (env : Env) : LobbyOk (Lobby.default env) := by
  refine ⟨?_, ?_, ?_, ?_, ?_⟩ <;> simp [Lobby.default]

theorem lobbyOk_set_status (l : Lobby) (st : LobbyStatus) (h : LobbyOk l) :
    LobbyOk { l with status := st } := h

/-- `LobbyOk` is stable under rewriting every player value in place, as
long as ids are preserved (progress resets and progress updates). -/
theorem lobbyOk_map_vals (l : Lobby) (f : Uuid × Player → Player)
    (hid : ∀ e ∈ l.players, (f e).id = e.2.id) (st : LobbyStatus)
    (h : LobbyOk l) :
    LobbyOk { l with
      players := l.players.map (fun e => (e.1, f e)), status := st } := by
  obtain ⟨hlen, hkeys, hsort, hemp, hown⟩ := h
  have hk : keys (l.players.map (fun e => (e.1, f e))) = keys l.players := by
    unfold keys
    rw [List.map_map]
    rfl
  refine ⟨by simpa using hlen, ?_, by rw [hk]; exact hsort, ?_, ?_⟩
  · intro e he
    rcases List.mem_map.mp he with ⟨e', he', rfl⟩
    simpa [hid e' he'] using hkeys e' he'
  · intro h0
    exact hemp (by simpa using h0)
  · intro h0
    rw [hk]
    exact hown (by simpa using h0)

/-! ### Branch equations for the lobby operations -/

theorem add_player_of_full {l : Lobby} (p : Player)
    (h : MAX_LOBBY_SIZE ≤ l.players.length) :
    l.add_player p = (l, [Output.toSelf (AppMessage.LobbyFull p.tx)]) := by
  simp [Lobby.add_player, h]

theorem add_player_of_not_waiting {l : Lobby} (p : Player)
    (h1 : l.players.length < MAX_LOBBY_SIZE)
    (h2 : l.status ≠ LobbyStatus.WaitingForPlayers) :
    l.add_player p
      = (l, [Output.toSelf (AppMessage.LobbyNotWaitingForPlayers p.tx)]) := by
  have hn : ¬ l.players.length ≥ MAX_LOBBY_SIZE := by omega
  simp [Lobby.add_player, hn, h2]

theorem add_player_first {l : Lobby} (p : Player)
    (h1 : l.players.length < MAX_LOBBY_SIZE)
    (h2 : l.status = LobbyStatus.WaitingForPlayers)
    (h3 : (insertKey p.id p l.players).length = 1) :
    l.add_player p
      = ({ l with players := insertKey p.id p l.players, owner := some p.id },
        sendAll (insertKey p.id p l.players)
            (BackendMessage.AddPlayer p.to_common_player)
          ++ [Output.toSelf (AppMessage.SendLobbyPlayerCountUpdate l.id),
              Output.toSelf AppMessage.SendConnectionCounts,
              Output.toChan p.tx (BackendMessage.AssignOwner p.id),
              Output.toChan p.tx (BackendMessage.ProvidePlayerId p.id)]) := by
  have hn : ¬ l.players.length ≥ MAX_LOBBY_SIZE := by omega
  simp [Lobby.add_player, Lobby.broadcast, hn, h2, h3]

theorem add_player_join {l : Lobby} (p : Player)
    (h1 : l.players.length < MAX_LOBBY_SIZE)
    (h2 : l.status = LobbyStatus.WaitingForPlayers)
    (h3 : (insertKey p.id p l.players).length ≠ 1) :
    l.add_player p
      = ({ l with players := insertKey p.id p l.players },
        sendAll (insertKey p.id p l.players)
            (BackendMessage.AddPlayer p.to_common_player)
          ++ [Output.toSelf (AppMessage.SendLobbyPlayerCountUpdate l.id),
              Output.toSelf AppMessage.SendConnectionCounts,
              Output.toChan p.tx (BackendMessage.ProvidePlayerId p.id)]) := by
  have hn : ¬ l.players.length ≥ MAX_LOBBY_SIZE := by omega
  simp [Lobby.add_player, Lobby.broadcast, hn, h2, h3]

theorem remove_player_of_absent {l : Lobby} (p : Player)
    (h : lookupKey p.id l.players = none) :
    l.remove_player p = (l, []) := by
  simp [Lobby.remove_player, h]

theorem remove_player_last {l : Lobby} (p : Player) {removed : Player}
    (hfind : lookupKey p.id l.players = some removed)
    (hnil : eraseKey p.id l.players = []) :
    l.remove_player p
      = ({ l with
            players := ([] : List (Uuid × Player)),
            owner := none,
            status := LobbyStatus.WaitingForPlayers },
        [Output.toSelf (AppMessage.SendLobbyPlayerCountUpdate l.id),
          Output.toSelf AppMessage.SendConnectionCounts,
          Output.toSelf (AppMessage.SendLobbyStatusUpdate l.id),
          Output.timer EMPTY_LOBBY_LIFETIME (AppMessage.RemoveLobby l.id)]) := by
  simp [Lobby.remove_player, hfind, hnil, Lobby.broadcast, sendAll]

theorem remove_player_owner_promote {l : Lobby} (p : Player)
    {removed v0 : Player} {k0 : Uuid}
    (hfind : lookupKey p.id l.players = some removed)
    (howner : l.owner = some removed.id)
    (hhead : (eraseKey p.id l.players).head? = some (k0, v0)) :
    l.remove_player p
      = ({ l with players := eraseKey p.id l.players, owner := some k0 },
        sendAll (eraseKey p.id l.players)
            (BackendMessage.RemovePlayer removed.id)
          ++ sendAll (eraseKey p.id l.players)
            (BackendMessage.AssignOwner k0)
          ++ [Output.toSelf (AppMessage.SendLobbyPlayerCountUpdate l.id),
              Output.toSelf AppMessage.SendConnectionCounts]) := by
  have hne : eraseKey p.id l.players ≠ [] := by
    intro h0
    rw [h0] at hhead
    simp at hhead
  simp [Lobby.remove_player, hfind, howner, hhead, hne, Lobby.broadcast]

theorem remove_player_nonowner {l : Lobby} (p : Player) {removed : Player}
    (hfind : lookupKey p.id l.players = some removed)
    (howner : l.owner ≠ some removed.id)
    (hne : eraseKey p.id l.players ≠ []) :
    l.remove_player p
      = ({ l with players := eraseKey p.id l.players },
        sendAll (eraseKey p.id l.players)
            (BackendMessage.RemovePlayer removed.id)
          ++ [Output.toSelf (AppMessage.SendLobbyPlayerCountUpdate l.id),
              Output.toSelf AppMessage.SendConnectionCounts]) := by
  simp [Lobby.remove_player, hfind, howner, hne, Lobby.broadcast]

/-! ### Preservation of the lobby invariant by the lobby operations -/

theorem lobbyOk_updateKey (l : Lobby) (k : Uuid) (g : Player → Player)
    (hid : ∀ q, (g q).id = q.id) (st : LobbyStatus) (h : LobbyOk l) :
    LobbyOk { l with players := updateKey k g l.players, status := st } := by
  rw [updateKey_eq_map]
  exact lobbyOk_map_vals l (fun e => if e.1 = k then g e.2 else e.2)
    (fun e _ => by
      show (if e.1 = k then g e.2 else e.2).id = e.2.id
      split <;> simp [hid]) st h

theorem lobbyOk_add_player (l : Lobby) (p : Player) (h : LobbyOk l) :
    LobbyOk (l.add_player p).1 := by
  by_cases hfull : MAX_LOBBY_SIZE ≤ l.players.length
  · rw [add_player_of_full p hfull]
    exact h
  have h1 : l.players.length < MAX_LOBBY_SIZE := by omega
  by_cases hst : l.status = LobbyStatus.WaitingForPlayers
  · obtain ⟨hlen, hkeys, hsort, hemp, hown⟩ := h
    have hmemkeys : ∀ e ∈ insertKey p.id p l.players, e.2.id = e.1 := by
      intro e he
      rcases mem_insertKey he with rfl | he'
      · rfl
      · exact hkeys e he'
    have hlen' : (insertKey p.id p l.players).length ≤ MAX_LOBBY_SIZE := by
      have := length_insertKey_le p.id p l.players
      omega
    by_cases hone : (insertKey p.id p l.players).length = 1
    · rw [add_player_first p h1 hst hone]
      refine ⟨hlen', hmemkeys, pairwise_keys_insertKey _ _ hsort, ?_, ?_⟩
      · intro h0
        exact absurd h0 (insertKey_ne_nil _ _ _)
      · intro _
        exact ⟨p.id, rfl, mem_keys_insertKey_self _ _ _⟩
    · rw [add_player_join p h1 hst hone]
      refine ⟨hlen', hmemkeys, pairwise_keys_insertKey _ _ hsort, ?_, ?_⟩
      · intro h0
        exact absurd h0 (insertKey_ne_nil _ _ _)
      · intro _
        have hne : l.players ≠ [] := by
          intro h0
          apply hone
          simp [h0, insertKey]
        obtain ⟨o, ho, homem⟩ := hown hne
        exact ⟨o, ho, mem_keys_insertKey_of_mem _ _ homem⟩
  · rw [add_player_of_not_waiting p h1 hst]
    exact h

theorem lobbyOk_remove_player (l : Lobby) (p : Player) (h : LobbyOk l) :
    LobbyOk (l.remove_player p).1 := by
  obtain ⟨hlen, hkeys, hsort, hemp, hown⟩ := h
  cases hfind : lookupKey p.id l.players with
  | none =>
    rw [remove_player_of_absent p hfind]
    exact ⟨hlen, hkeys, hsort, hemp, hown⟩
  | some removed =>
    have hrid : removed.id = p.id := hkeys _ (lookupKey_mem hfind)
    have hlen1 : (eraseKey p.id l.players).length ≤ MAX_LOBBY_SIZE :=
      le_trans (length_eraseKey_le _ _) hlen
    have hkeys1 : ∀ e ∈ eraseKey p.id l.players, e.2.id = e.1 :=
      fun e he => hkeys e (mem_of_mem_eraseKey he)
    have hsort1 : (keys (eraseKey p.id l.players)).Pairwise (· < ·) :=
      pairwise_keys_eraseKey _ hsort
    by_cases hnil : eraseKey p.id l.players = []
    · rw [remove_player_last p hfind hnil]
      exact ⟨by simp, by simp, by simp, fun _ => rfl, by simp⟩
    · by_cases howner : l.owner = some removed.id
      · cases hhead : (eraseKey p.id l.players).head? with
        | none => exact absurd (List.head?_eq_none_iff.mp hhead) hnil
        | some e0 =>
          obtain ⟨k0, v0⟩ := e0
          rw [remove_player_owner_promote p hfind howner hhead]
          refine ⟨hlen1, hkeys1, hsort1, fun h0 => absurd h0 hnil, ?_⟩
          intro _
          refine ⟨k0, rfl, ?_⟩
          exact List.mem_map_of_mem _ (List.mem_of_mem_head? hhead)
      · rw [remove_player_nonowner p hfind howner hnil]
        refine ⟨hlen1, hkeys1, hsort1, fun h0 => absurd h0 hnil, ?_⟩
        intro _
        have hne : l.players ≠ [] := by
          intro h0
          rw [h0] at hfind
          simp [lookupKey] at hfind
        obtain ⟨o, ho, homem⟩ := hown hne
        have hop : o ≠ p.id := by
          intro h0
          apply howner
          rw [ho, hrid, h0]
        exact ⟨o, ho, mem_keys_eraseKey homem hop⟩

/-! ### Preservation of the invariant by the actor loop -/

theorem mem_updateKey {α : Type} {q : Uuid × α} {k : Uuid} {f : α → α}
    {l : List (Uuid × α)} (h : q ∈ updateKey k f l) :
    ∃ p ∈ l, q = (if p.1 = k then (p.1, f p.2) else p) := by
  unfold updateKey at h
  rcases List.mem_map.mp h with ⟨p, hp, rfl⟩
  exact ⟨p, hp, rfl⟩

theorem lookup_lobbyOk {app : App} {k : Uuid} {lobby : Lobby} (h : Inv app)
    (hf : lookupKey k app.lobbies = some lobby) : LobbyOk lobby :=
  h _ (lookupKey_mem hf)

theorem inv_new : Inv App.new := by
  intro q hq
  simp [App.new] at hq

theorem inv_setLobby {app : App} {k : Uuid} {l' : Lobby} (h : Inv app)
    (hl : LobbyOk l') : Inv (app.setLobby k l') := by
  intro q hq
  have hq' : q ∈ updateKey k (fun _ => l') app.lobbies := hq
  rcases mem_updateKey hq' with ⟨p, hp, rfl⟩
  split
  · exact hl
  · exact h p hp

theorem inv_insertLobby {app : App} {k : Uuid} {lobby : Lobby} (h : Inv app)
    (hl : LobbyOk lobby) :
    Inv { app with lobbies := insertKey k lobby app.lobbies } := by
  intro q hq
  rcases mem_insertKey hq with rfl | hq'
  · exact hl
  · exact h q hq'

theorem inv_eraseLobby {app : App} (k : Uuid) (h : Inv app) :
    Inv { app with lobbies := eraseKey k app.lobbies } :=
  fun q hq => h q (mem_of_mem_eraseKey hq)

theorem inv_create_new_lobby (env : Env) (app : App) (h : Inv app) :
    Inv (app.create_new_lobby env).2.1 :=
  inv_insertLobby h (lobbyOk_default env)

theorem inv_get_lobby_id (env : Env) (jm : JoinMode) (app : App)
    (h : Inv app) : Inv (app.get_lobby_id env jm).2.1 := by
  cases jm with
  | Quickplay =>
    unfold App.get_lobby_id
    cases hmax : maxByKeyLast (fun l => l.players.length)
        ((app.lobbies.map Prod.snd).filter
          (fun l => l.players.length < MAX_LOBBY_SIZE)) with
    | some lobby => exact h
    | none => exact inv_create_new_lobby env app h
  | Join lobby_id =>
    show Inv (match lookupKey lobby_id app.lobbies with
      | none => ((none : Option Uuid), app, ([] : List Output))
      | some lobby => (some lobby.id, app, ([] : List Output))).2.1
    cases hfind : lookupKey lobby_id app.lobbies with
    | none => exact h
    | some lobby => exact h
  | Create => exact inv_create_new_lobby env app h

theorem inv_step (env : Env) (msg : AppMessage) (app : App) (h : Inv app) :
    Inv (stepApp env msg app).1 := by
  cases msg with
  | ProvideLobbyInformation tx jm =>
    have h2 := inv_get_lobby_id env jm app h
    simp only [stepApp]
    split
    · rename_i app' outs heq
      rw [heq] at h2
      exact h2
    · rename_i lobby_id app' outs heq
      rw [heq] at h2
      split
      · exact h2
      · exact h2
  | AddPlayerToLobby lobby_id player =>
    simp only [stepApp]
    split
    · exact h
    · rename_i lobby hfind
      exact inv_setLobby h (lobbyOk_add_player lobby player (lookup_lobbyOk h hfind))
  | RemovePlayer player lobby_id =>
    simp only [stepApp]
    split
    · exact h
    · rename_i lobby hfind
      exact inv_setLobby h (lobbyOk_remove_player lobby player (lookup_lobbyOk h hfind))
  | SendMessage player message lobby_id =>
    simp only [stepApp]
    split
    · exact h
    · exact h
  | LobbyFull player_tx => exact h
  | LobbyNotWaitingForPlayers player_tx => exact h
  | CurrentLobbies client_id =>
    simp only [stepApp]
    split
    · exact h
    · exact h
  | AddLobby lobby_id => exact h
  | RemoveLobby lobby_id =>
    simp only [stepApp, App.remove_lobby]
    split
    · exact h
    · rename_i lobby hfind
      split
      · exact inv_eraseLobby lobby_id h
      · exact h
  | AddClient client_id client_tx => exact h
  | RemoveClient client_id => exact h
  | SendConnectionCounts => exact h
  | RequestStart player lobby_id =>
    simp only [stepApp]
    split
    · exact h
    · rename_i lobby hfind
      split
      · exact inv_setLobby h (lobbyOk_set_status lobby _ (lookup_lobbyOk h hfind))
      · exact h
  | Start lobby_id =>
    simp only [stepApp]
    split
    · exact h
    · rename_i lobby hfind
      split
      · exact inv_setLobby h (lobbyOk_set_status lobby _ (lookup_lobbyOk h hfind))
      · exact h
  | SendLobbyPlayerCountUpdate lobby_id =>
    simp only [stepApp]
    split
    · exact h
    · exact h
  | SendLobbyStatusUpdate lobby_id =>
    simp only [stepApp]
    split
    · exact h
    · exact h
  | Finish lobby_id =>
    simp only [stepApp]
    split
    · exact h
    · rename_i lobby hfind
      split
      · exact inv_setLobby h (lobbyOk_set_status lobby _ (lookup_lobbyOk h hfind))
      · exact h
  | Reset lobby_id =>
    simp only [stepApp]
    split
    · exact h
    · rename_i lobby hfind
      exact inv_setLobby h
        (lobbyOk_map_vals lobby (fun e => { e.2 with progress := 0 })
          (fun e _ => rfl) LobbyStatus.WaitingForPlayers
          (lookup_lobbyOk h hfind))
  | ComputePlayerProgress lobby_id player_id progress =>
    simp only [stepApp]
    split
    · exact h
    · rename_i lobby hfind
      split
      · exact h
      · rename_i player hfindp
        split
        · exact h
        · split
          · split
            · exact h
            · rename_i goal_file hdg
              split
              · exact h
              · rename_i player_file hdp
                split
                · exact inv_setLobby h
                    (lobbyOk_updateKey lobby player_id
                      (fun q => { q with
                        progress :=
                          normalized_levenshtein goal_file player_file })
                      (fun q => rfl) _ (lookup_lobbyOk h hfind))
                · exact inv_setLobby h
                    (lobbyOk_updateKey lobby player_id
                      (fun q => { q with
                        progress :=
                          normalized_levenshtein goal_file player_file })
                      (fun q => rfl) _ (lookup_lobbyOk h hfind))
          · exact h

/-- Every reachable registry state satisfies the representation
invariant. -/
theorem inv_reachable {s : App} (h : Reachable s) : Inv s := by
  induction h with
  | init => exact inv_new
  | step env msg hr ih => exact inv_step env msg _ ih

/-! ### Auxiliary lemmas for matchmaking and owner succession -/

theorem maxByKeyLast_go {α : Type} (key : α → Nat) (t : List α) (b : α) :
    ∃ x, t.foldl
        (fun acc x =>
          match acc with
          | none => some x
          | some y => if key y > key x then some y else some x)
        (some b) = some x
      ∧ (x = b ∨ x ∈ t) ∧ key b ≤ key x ∧ ∀ y ∈ t, key y ≤ key x := by
  induction t generalizing b with
  | nil => exact ⟨b, rfl, Or.inl rfl, le_refl _, by simp⟩
  | cons a t ih =>
    by_cases hab : key b > key a
    · obtain ⟨x, hx, hmem, hle, hall⟩ := ih b
      refine ⟨x, ?_, ?_, hle, ?_⟩
      · simpa [hab] using hx
      · rcases hmem with rfl | hm
        · exact Or.inl rfl
        · exact Or.inr (List.mem_cons_of_mem _ hm)
      · intro y hy
        rcases List.mem_cons.mp hy with rfl | hy'
        · omega
        · exact hall y hy'
    · obtain ⟨x, hx, hmem, hle, hall⟩ := ih a
      refine ⟨x, ?_, ?_, ?_, ?_⟩
      · simpa [hab] using hx
      · rcases hmem with rfl | hm
        · exact Or.inr (List.mem_cons_self _ _)
        · exact Or.inr (List.mem_cons_of_mem _ hm)
      · omega
      · intro y hy
        rcases List.mem_cons.mp hy with rfl | hy'
        · exact hle
        · exact hall y hy'

theorem maxByKeyLast_spec {α : Type} (key : α → Nat) (l : List α) :
    (l = [] ∧ maxByKeyLast key l = none)
    ∨ ∃ x, maxByKeyLast key l = some x ∧ x ∈ l ∧ ∀ y ∈ l, key y ≤ key x := by
  cases l with
  | nil => exact Or.inl ⟨rfl, rfl⟩
  | cons a t =>
    obtain ⟨x, hx, hmem, hle, hall⟩ := maxByKeyLast_go key t a
    refine Or.inr ⟨x, ?_, ?_, ?_⟩
    · simpa [maxByKeyLast] using hx
    · rcases hmem with rfl | hm
      · exact List.mem_cons_self _ _
      · exact List.mem_cons_of_mem _ hm
    · intro y hy
      rcases List.mem_cons.mp hy with rfl | hy'
      · exact hle
      · exact hall y hy'

theorem length_eraseKey_ge {α : Type} (k : Uuid) (l : List (Uuid × α)) :
    l.length ≤ (eraseKey k l).length + 1 := by
  induction l with
  | nil => simp [eraseKey]
  | cons e rest ih =>
    rw [eraseKey]
    split
    · simp
    · simp only [List.length_cons]
      omega

/-! ### The claims -/

/-- C1: Capacity invariant.  In every reachable registry state every lobby
holds at most `MAX_LOBBY_SIZE` players; `Lobby::add_player` on a full
lobby leaves the lobby (and all its state) unchanged and only forwards a
`LobbyFull` message carrying the candidate's channel, whose handler sends
the `LobbyFull` rejection on that channel. -/
theorem capacity_invariant :
    (∀ s : App, Reachable s →
      ∀ q ∈ s.lobbies, q.2.players.length ≤ MAX_LOBBY_SIZE)
    ∧ (∀ (l : Lobby) (p : Player), MAX_LOBBY_SIZE ≤ l.players.length →
        l.add_player p = (l, [Output.toSelf (AppMessage.LobbyFull p.tx)]))
    ∧ (∀ (env : Env) (app : App) (tx : Uuid),
        stepApp env (AppMessage.LobbyFull tx) app
          = (app, [Output.toChan tx BackendMessage.LobbyFull])) :=
  ⟨fun _ hs q hq => (inv_reachable hs q hq).1,
    fun _ p h => add_player_of_full p h,
    fun _ _ _ => rfl⟩

theorem capacity_invariant_witness :
    (Lobby.default wEnv).players.length ≤ MAX_LOBBY_SIZE
    ∧ wFullLobby.add_player (wPlayer 6)
        = (wFullLobby, [Output.toSelf (AppMessage.LobbyFull (wPlayer 6).tx)])
    ∧ stepApp wEnv (AppMessage.LobbyFull 42) wRaceApp
        = (wRaceApp, [Output.toChan 42 BackendMessage.LobbyFull]) :=
  ⟨capacity_invariant.1 wCreateApp
      (Reachable.step wEnv
        (AppMessage.ProvideLobbyInformation 0 JoinMode.Create) Reachable.init)
      (wEnv.fresh_id, Lobby.default wEnv) (by decide),
    capacity_invariant.2.1 wFullLobby (wPlayer 6) (by decide),
    capacity_invariant.2.2 wEnv wRaceApp 42⟩

/-- C2: Owner invariant.  In every reachable registry state, a non-empty
lobby's owner is `some id` for a current member id and an empty lobby's
owner is `none`; moreover every message handler preserves the full
registry invariant. -/
theorem owner_invariant :
    (∀ s : App, Reachable s → ∀ q ∈ s.lobbies,
      (q.2.players = [] → q.2.owner = none)
      ∧ (q.2.players ≠ [] →
          ∃ o, q.2.owner = some o ∧ o ∈ keys q.2.players))
    ∧ (∀ (env : Env) (msg : AppMessage) (app : App), Inv app →
        Inv (stepApp env msg app).1) :=
  ⟨fun _ hs q hq =>
      ⟨(inv_reachable hs q hq).2.2.2.1, (inv_reachable hs q hq).2.2.2.2⟩,
    inv_step⟩

theorem owner_invariant_witness :
    (Lobby.default wEnv).owner = none :=
  (owner_invariant.1 wCreateApp
      (Reachable.step wEnv
        (AppMessage.ProvideLobbyInformation 0 JoinMode.Create) Reachable.init)
      (wEnv.fresh_id, Lobby.default wEnv) (by decide)).1 (by decide)

/-- C4: Stale-timer idempotence for `Start`.  Processing a `Start` timer
message for an existing lobby whose status is not `AboutToStart` leaves
the whole registry unchanged and emits no output at all. -/
theorem start_stale_timer_noop (env : Env) (app : App) (lobby_id : Uuid)
    (lobby : Lobby) (hfind : lookupKey lobby_id app.lobbies = some lobby)
    (hst : ∀ d, lobby.status ≠ LobbyStatus.AboutToStart d) :
    stepApp env (AppMessage.Start lobby_id) app = (app, []) := by
  simp only [stepApp, hfind]

theorem start_stale_timer_noop_witness :
    stepApp wEnv (AppMessage.Start 7) wFullApp = (wFullApp, []) :=
  start_stale_timer_noop wEnv wFullApp 7 wFullLobby (by decide)
    (fun d h => by simp [wFullLobby] at h)

/-- C10: A `ProvideLobbyInformation` request in join mode
`Join lobby_id` for an id absent from the registry writes nothing to the
one-shot reply channel and leaves the registry unchanged. -/
theorem provide_lobby_information_unknown (env : Env) (app : App)
    (tx lobby_id : Uuid) (hfind : lookupKey lobby_id app.lobbies = none) :
    stepApp env
      (AppMessage.ProvideLobbyInformation tx (JoinMode.Join lobby_id)) app
      = (app, []) := by
  simp only [stepApp, App.get_lobby_id, hfind]

theorem provide_lobby_information_unknown_witness :
    stepApp wEnv (AppMessage.ProvideLobbyInformation 0 (JoinMode.Join 3))
      wRaceApp = (wRaceApp, []) :=
  provide_lobby_information_unknown wEnv wRaceApp 0 3 (by decide)

/-- C5: Owner succession determinism.  Removing the current owner from a
lobby of at least three members (a well-formed `BTreeMap`: sorted keys,
players keyed by their own id) promotes the member with the smallest id
among the remaining members and broadcasts the new ownership to them. -/
theorem owner_succession_min (l : Lobby) (p removed : Player)
    (hsort : (keys l.players).Pairwise (· < ·))
    (hkeys : ∀ e ∈ l.players, e.2.id = e.1)
    (hlen : 3 ≤ l.players.length)
    (hfind : lookupKey p.id l.players = some removed)
    (howner : l.owner = some p.id) :
    ∃ k0 v0, (eraseKey p.id l.players).head? = some (k0, v0)
      ∧ (l.remove_player p).1.owner = some k0
      ∧ (∀ a ∈ keys (eraseKey p.id l.players), k0 ≤ a)
      ∧ (l.remove_player p).2
        = sendAll (eraseKey p.id l.players)
            (BackendMessage.RemovePlayer removed.id)
          ++ sendAll (eraseKey p.id l.players)
            (BackendMessage.AssignOwner k0)
          ++ [Output.toSelf (AppMessage.SendLobbyPlayerCountUpdate l.id),
              Output.toSelf AppMessage.SendConnectionCounts] := by
  have hrid : removed.id = p.id := hkeys _ (lookupKey_mem hfind)
  have howner' : l.owner = some removed.id := by rw [howner, hrid]
  have hlen1 : 2 ≤ (eraseKey p.id l.players).length := by
    have := length_eraseKey_ge p.id l.players
    omega
  cases hE : eraseKey p.id l.players with
  | nil => rw [hE] at hlen1; simp at hlen1
  | cons e0 tail =>
    have hhead : (eraseKey p.id l.players).head? = some (e0.1, e0.2) := by
      rw [hE]
      rfl
    refine ⟨e0.1, e0.2, rfl, ?_, ?_, ?_⟩
    · rw [remove_player_owner_promote p hfind howner' hhead]
    · intro a ha
      have hsortE := pairwise_keys_eraseKey p.id hsort
      rw [hE] at hsortE
      simp only [keys_cons, List.pairwise_cons] at hsortE
      rcases List.mem_cons.mp ha with rfl | ha'
      · exact le_refl _
      · exact le_of_lt (hsortE.1 a ha')
    · rw [remove_player_owner_promote p hfind howner' hhead, hE]

theorem owner_succession_min_witness :
    ∃ k0 v0, (eraseKey 1 wRaceLobby.players).head? = some (k0, v0)
      ∧ (wRaceLobby.remove_player (wPlayer 1)).1.owner = some k0
      ∧ (∀ a ∈ keys (eraseKey 1 wRaceLobby.players), k0 ≤ a)
      ∧ (wRaceLobby.remove_player (wPlayer 1)).2
        = sendAll (eraseKey 1 wRaceLobby.players)
            (BackendMessage.RemovePlayer 1)
          ++ sendAll (eraseKey 1 wRaceLobby.players)
            (BackendMessage.AssignOwner k0)
          ++ [Output.toSelf (AppMessage.SendLobbyPlayerCountUpdate 7),
              Output.toSelf AppMessage.SendConnectionCounts] :=
  owner_succession_min wRaceLobby (wPlayer 1) (wPlayer 1) (by decide)
    (by decide) (by decide) (by decide) (by decide)

/-- C7: Quickplay matchmaking.  When some lobby is non-full, Quickplay
returns an existing non-full lobby with the largest player count among the
non-full lobbies and changes nothing; when every lobby is full, it creates
a fresh default lobby, stores it, and announces it — and only then. -/
theorem quickplay_matchmaking (env : Env) (app : App) :
    ((∃ q ∈ app.lobbies, q.2.players.length < MAX_LOBBY_SIZE) →
      ∃ chosen, chosen ∈ app.lobbies.map Prod.snd
        ∧ chosen.players.length < MAX_LOBBY_SIZE
        ∧ (∀ q ∈ app.lobbies, q.2.players.length < MAX_LOBBY_SIZE →
            q.2.players.length ≤ chosen.players.length)
        ∧ app.get_lobby_id env JoinMode.Quickplay = (some chosen.id, app, []))
    ∧ ((∀ q ∈ app.lobbies, ¬ q.2.players.length < MAX_LOBBY_SIZE) →
      app.get_lobby_id env JoinMode.Quickplay
        = (some env.fresh_id,
          { app with
            lobbies :=
              insertKey env.fresh_id (Lobby.default env) app.lobbies },
          [Output.toSelf (AppMessage.AddLobby env.fresh_id)])) := by
  constructor
  · rintro ⟨q, hq, hlt⟩
    rcases maxByKeyLast_spec (fun l => l.players.length)
        ((app.lobbies.map Prod.snd).filter
          (fun l => l.players.length < MAX_LOBBY_SIZE)) with
      ⟨hnil, _⟩ | ⟨chosen, hmax, hmem, hall⟩
    · exfalso
      have : q.2 ∈ (app.lobbies.map Prod.snd).filter
          (fun l => l.players.length < MAX_LOBBY_SIZE) := by
        rw [List.mem_filter]
        exact ⟨List.mem_map_of_mem _ hq, by simpa using hlt⟩
      rw [hnil] at this
      simp at this
    · have hmem' := List.mem_filter.mp hmem
      refine ⟨chosen, hmem'.1, by simpa using hmem'.2, ?_, ?_⟩
      · intro q' hq' hlt'
        exact hall q'.2 (by
          rw [List.mem_filter]
          exact ⟨List.mem_map_of_mem _ hq', by simpa using hlt'⟩)
      · unfold App.get_lobby_id
        rw [hmax]
  · intro hfull
    have hnil : (app.lobbies.map Prod.snd).filter
        (fun l => l.players.length < MAX_LOBBY_SIZE) = [] := by
      rw [List.filter_eq_nil_iff]
      intro l hl
      rcases List.mem_map.mp hl with ⟨q, hq, rfl⟩
      simpa using hfull q hq
    unfold App.get_lobby_id
    rw [hnil]
    rfl

theorem quickplay_matchmaking_witness :
    (∃ chosen, chosen ∈ wQuickApp.lobbies.map Prod.snd
      ∧ chosen.players.length < MAX_LOBBY_SIZE
      ∧ (∀ q ∈ wQuickApp.lobbies, q.2.players.length < MAX_LOBBY_SIZE →
          q.2.players.length ≤ chosen.players.length)
      ∧ wQuickApp.get_lobby_id wEnv JoinMode.Quickplay
          = (some chosen.id, wQuickApp, []))
    ∧ wFullApp.get_lobby_id wEnv JoinMode.Quickplay
        = (some wEnv.fresh_id,
          { wFullApp with
            lobbies :=
              insertKey wEnv.fresh_id (Lobby.default wEnv) wFullApp.lobbies },
          [Output.toSelf (AppMessage.AddLobby wEnv.fresh_id)]) :=
  ⟨(quickplay_matchmaking wEnv wQuickApp).1 ⟨(1, wLobbyOne), by decide, by decide⟩,
    (quickplay_matchmaking wEnv wFullApp).2 (by decide)⟩

/-- C6: Progress score definition.  For all goal and submission texts the
score equals `1 - distance / max(len, len)` (with rational division, so
the both-empty corner returns 1 as the code does), lies in `[0, 1]`,
equals 1 on identical texts, and equals 0 against an empty submission
whenever the goal is non-empty. -/
theorem progress_score_spec (g s : List Char) :
    normalized_levenshtein g s
        = 1 - (levenshtein g s : ℚ) / (max g.length s.length : ℚ)
      ∧ 0 ≤ normalized_levenshtein g s
      ∧ normalized_levenshtein g s ≤ 1
      ∧ normalized_levenshtein g g = 1
      ∧ (g ≠ [] → normalized_levenshtein g [] = 0) := by
  refine ⟨?_, normalized_levenshtein_nonneg g s,
    normalized_levenshtein_le_one g s, normalized_levenshtein_self g,
    normalized_levenshtein_nil_right g⟩
  unfold normalized_levenshtein
  split
  · rename_i hgs
    obtain ⟨rfl, rfl⟩ := hgs
    simp [levenshtein_nil_left]
  · rfl

theorem progress_score_spec_witness :
    (['a'] : List Char) ≠ []
      ∧ normalized_levenshtein ['a'] [] = 0
      ∧ normalized_levenshtein ['a'] ['a'] = 1
      ∧ 0 ≤ normalized_levenshtein ['a'] ['b']
      ∧ normalized_levenshtein ['a'] ['b'] ≤ 1 :=
  ⟨by decide, (progress_score_spec ['a'] []).2.2.2.2 (by decide),
    (progress_score_spec ['a'] ['a']).2.2.2.1,
    (progress_score_spec ['a'] ['b']).2.1,
    (progress_score_spec ['a'] ['b']).2.2.1⟩

/-- C8: Not-accepting-players rejection.  `Lobby::add_player` on a
non-full lobby whose status is not `WaitingForPlayers` keeps the lobby
unchanged and forwards a `LobbyNotWaitingForPlayers` message carrying the
candidate's channel, whose (spec-modelled) dispatch arm sends the
rejection on that channel. -/
theorem not_accepting_rejection (l : Lobby) (p : Player) (env : Env)
    (app : App) (h1 : l.players.length < MAX_LOBBY_SIZE)
    (h2 : l.status ≠ LobbyStatus.WaitingForPlayers) :
    l.add_player p
        = (l, [Output.toSelf (AppMessage.LobbyNotWaitingForPlayers p.tx)])
      ∧ stepApp env (AppMessage.LobbyNotWaitingForPlayers p.tx) app
        = (app, [Output.toChan p.tx BackendMessage.LobbyNotWaitingForPlayers]) :=
  ⟨add_player_of_not_waiting p h1 h2, rfl⟩

theorem not_accepting_rejection_witness :
    wRaceLobby.add_player (wPlayer 9)
        = (wRaceLobby,
          [Output.toSelf (AppMessage.LobbyNotWaitingForPlayers (wPlayer 9).tx)])
      ∧ stepApp wEnv (AppMessage.LobbyNotWaitingForPlayers (wPlayer 9).tx)
          wRaceApp
        = (wRaceApp,
          [Output.toChan (wPlayer 9).tx
            BackendMessage.LobbyNotWaitingForPlayers]) :=
  not_accepting_rejection wRaceLobby (wPlayer 9) wEnv wRaceApp (by decide)
    (by decide)

/-- C3: The `Reset` handler performs no status re-check: delivered to a
lobby whose status is `InProgress 5` (not `Finish`), it still resets all
player progress to 0, forces the status to `WaitingForPlayers`, and emits
broadcasts — the transition claimed to be a no-op for non-`Finish`
statuses. -/
theorem reset_without_status_recheck :
    wResetLobby.status = LobbyStatus.InProgress 5
      ∧ (stepApp wEnv (AppMessage.Reset 7) wResetApp).1.lobbies
        = [(7, { wResetLobby with
              players := [(1, wPlayer 1), (2, wPlayer 2)],
              status := LobbyStatus.WaitingForPlayers })]
      ∧ (stepApp wEnv (AppMessage.Reset 7) wResetApp).2 ≠ [] := by
  refine ⟨rfl, ?_, by decide⟩
  decide

/-- C9 (amended): A `ComputePlayerProgress` message scoring exactly 1
while the lobby is `InProgress d` stores score 1 for the player, sets the
status to `InProgress (now + REDUCED_LOBBY_PLAY_TIME)` — the variant stays
`InProgress` and the deadline becomes `now + REDUCED_LOBBY_PLAY_TIME`
without any comparison against `d` — and arms a new `Finish` timer for
`REDUCED_LOBBY_PLAY_TIME`. -/
theorem reduced_play_time_on_finish (env : Env) (app : App)
    (lobby_id player_id : Uuid) (lobby : Lobby) (player : Player) (d : Int)
    (goal_file player_file : List Char) (progress : List Nat)
    (hfind : lookupKey lobby_id app.lobbies = some lobby)
    (hfindp : lookupKey player_id lobby.players = some player)
    (hw : player.waiting = false)
    (hst : lobby.status = LobbyStatus.InProgress d)
    (hdg : utf8Decode lobby.challenge_files.goal_file = some goal_file)
    (hdp : utf8Decode progress = some player_file)
    (hscore : normalized_levenshtein goal_file player_file = 1) :
    (stepApp env
        (AppMessage.ComputePlayerProgress lobby_id player_id progress) app).1
        = app.setLobby lobby_id
          { lobby with
            players := updateKey player_id
              (fun q => { q with progress := 1 }) lobby.players,
            status := LobbyStatus.InProgress
              (env.now + REDUCED_LOBBY_PLAY_TIME) }
      ∧ Output.timer REDUCED_LOBBY_PLAY_TIME (AppMessage.Finish lobby_id)
          ∈ (stepApp env
              (AppMessage.ComputePlayerProgress lobby_id player_id progress)
              app).2 := by
  simp only [stepApp, hfind, hfindp, hw, hst, hdg, hdp, hscore]
  simp

theorem reduced_play_time_witness :
    (stepApp wEnv (AppMessage.ComputePlayerProgress 7 1 [97]) wRaceApp).1
        = wRaceApp.setLobby 7
          { wRaceLobby with
            players := updateKey 1
              (fun q => { q with progress := 1 }) wRaceLobby.players,
            status := LobbyStatus.InProgress
              (wEnv.now + REDUCED_LOBBY_PLAY_TIME) }
      ∧ Output.timer REDUCED_LOBBY_PLAY_TIME (AppMessage.Finish 7)
          ∈ (stepApp wEnv (AppMessage.ComputePlayerProgress 7 1 [97])
              wRaceApp).2 :=
  reduced_play_time_on_finish wEnv wRaceApp 7 1 wRaceLobby (wPlayer 1) 0
    ['a'] ['a'] [97] (by decide) (by decide) rfl rfl (by decide) (by decide)
    (normalized_levenshtein_self ['a'])

/-- C9 (counterexample): with the lobby deadline `d = 0` and `now = 0`, a
submission identical to the goal file yields score 1 and the handler sets
the status to `InProgress 10` — the new deadline `10` is not earlier than
the old deadline `0`, refuting "the new deadline is earlier than d". -/
theorem reduced_play_time_not_shortened :
    wRaceLobby.status = LobbyStatus.InProgress 0
      ∧ (stepApp wEnv (AppMessage.ComputePlayerProgress 7 1 [97])
            wRaceApp).1.lobbies
        = [(7, { wRaceLobby with
              players := [(1, { wPlayer 1 with progress := 1 }),
                          (2, wPlayer 2), (3, wPlayer 3)],
              status := LobbyStatus.InProgress 10 })]
      ∧ ¬ ((10 : Int) < 0) := by
  refine ⟨rfl, ?_, by decide⟩
  have hd : utf8Decode [97] = some ['a'] := by decide
  simp [stepApp, wRaceApp, wRaceLobby, wEnv, wPlayer, lookupKey, hd,
    updateKey, App.setLobby, Lobby.broadcast, sendAll,
    normalized_levenshtein_self, REDUCED_LOBBY_PLAY_TIME]

end NewKeyglide

